import Mathlib

/-!
Verification development for the Minecraft-ModSide-Analyzer repository
(`src/minecraft-modSide-analyzer.py`).

The core pipeline of the program is shallowly embedded here:

* utility helpers (`clean_json`, `similarity` is abstracted, the two
  deterministic link builders `curseforge_link` / `mcmod_link`),
* manifest parsing (`parse_fabric`, `parse_forge`, `read_metadata`),
* side classification (`classify`),
* the Modrinth catalog matcher (`modrinth_link`),
* the per-archive task body (`process_jar_with_sem` → `process_jar`),
* the orchestrator (`analyze_mods` → `analyzeOutcomes` / `analyzeRun`,
  the text-report generation → `genLog`), and
* an abstract transition system for the `asyncio.Semaphore` worker gate.

Modelling conventions:

* Python dictionaries produced by the parsers become the record `ModMeta`;
  a key that is absent or bound to `None` becomes `Option.none`
  (`dict.get` semantics).
* Python floats (the fuzzy-match scores) are modelled as exact rationals;
  the claims checked here only involve comparisons that are insensitive to
  float rounding at this scale.
* `difflib.SequenceMatcher.ratio` (the `similarity` helper) and
  `json.loads` are Python-library functions, not code of this repository;
  they are abstracted as parameters (`simf`, `jp`).  Theorems quantify over
  them, adding only the documented bound `0 ≤ ratio` where a claim needs it.
* Zip archives are modelled by their entry list `(file name, decoded text)`;
  a failure to open the archive is the `Except.error` case (the
  `except Exception as e` branch of `read_metadata`).
* Icon extraction and the Qt GUI are outside every claim and are omitted.
-/

/-- Python truthiness of an optional string: `None` and `""` are falsy. -/
def pyTruthy : Option String → Bool
  | none => false
  | some s => !s.isEmpty

/-- Python `a or b` on optional strings: yields `b` whenever `a` is falsy. -/
def pyOr (a b : Option String) : Option String :=
  if pyTruthy a then a else b

/-- Python f-string rendering of an optional string: `None` prints as `"None"`. -/
def pyStr : Option String → String
  | none => "None"
  | some s => s

/-- Python `str.lower` (ASCII case folding, which is all the scanned
manifests and the claims exercise). -/
def pyLower (s : String) : String := ⟨s.data.map Char.toLower⟩

/-- Python `str.endswith` as a character-list suffix test. -/
def pyEndsWith (s suf : String) : Bool := suf.data.isSuffixOf s.data

/-- `clean_json` (line 14): strips the control characters
`\x00`-`\x08`, `\x0B`, `\x0C`, `\x0E`-`\x1F`, keeping tab, newline and
carriage return, before JSON parsing. -/
def clean_json (s : String) : String :=
  ⟨s.data.filter (fun c =>
    !(c.val ≤ 0x08 || c.val == 0x0B || c.val == 0x0C ||
      (0x0E ≤ c.val && c.val ≤ 0x1F)))⟩

/-- `curseforge_link` (line 25): the CurseForge URL is templated from the
display name by plain f-string interpolation. -/
def curseforge_link (name : String) : String :=
  "https://www.curseforge.com/minecraft/mc-mods/" ++ name

/-- `mcmod_link` (line 28): the MC-catalog (mcmod.cn) URL is templated from
the display name by plain f-string interpolation. -/
def mcmod_link (name : String) : String :=
  "https://search.mcmod.cn/s?key=" ++ name

/-- Normalized metadata record: the dictionaries returned by
`parse_fabric` / `parse_forge` / the `read_metadata` fallbacks.  A field is
`none` when the corresponding dictionary key is absent (or bound to
Python `None`), matching `dict.get` semantics. -/
structure ModMeta where
  loader : Option String
  id : Option String
  name : Option String
  env : Option String
  client_only : Option Bool
  icon : Option String
deriving DecidableEq, Repr

/-- The fields of a parsed `fabric.mod.json` object that `parse_fabric`
reads (`environment`, `id`, `name`, `icon`); stands for the dictionary
produced by `json.loads`. -/
structure JsonObj where
  environment : Option String
  id : Option String
  name : Option String
  icon : Option String
deriving DecidableEq, Repr

/-- `parse_fabric` (lines 44-53), with `json.loads` abstracted as `jp`
(applied after `clean_json`, returning `none` on a parse failure — the
bare `except: return None`).  On success the record carries
loader `"fabric"`, `environment` defaulted to `"*"`, and the display name
`data.get("name") or jar_name`. -/
def parse_fabric (jp : String → Option JsonObj) (text : String)
    (jar_name : Option String) : Option ModMeta :=
  match jp (clean_json text) with
  | none => none
  | some d =>
    some { loader := some "fabric", id := d.id,
           name := pyOr d.name jar_name,
           env := some (d.environment.getD "*"),
           client_only := none, icon := d.icon }

/-- Python `str.splitlines` line-break characters (besides `"\r\n"`,
which is consumed as a single break). -/
def pyLineBreaks : List Char :=
  ['\n', '\r', '\x0B', '\x0C', '\x1C', '\x1D', '\x1E',
   Char.ofNat 0x85, Char.ofNat 0x2028, Char.ofNat 0x2029]

/-- Worker for `pySplitlines`: accumulates the current line (reversed). -/
def splitlinesAux : List Char → List Char → List (List Char)
  | [], [] => []
  | [], acc => [acc.reverse]
  | '\r' :: '\n' :: rest, acc => acc.reverse :: splitlinesAux rest []
  | c :: rest, acc =>
    if c ∈ pyLineBreaks then acc.reverse :: splitlinesAux rest []
    else splitlinesAux rest (c :: acc)

/-- Python `str.splitlines` (no trailing empty line for a trailing
terminator; `"\r\n"` is one break). -/
def pySplitlines (s : String) : List String :=
  (splitlinesAux s.data []).map fun l => ⟨l⟩

/-- Worker for `strContains`: does `needle` occur contiguously in the
remaining haystack? -/
def containsAux (needle : List Char) : List Char → Bool
  | [] => needle.isEmpty
  | c :: rest => needle.isPrefixOf (c :: rest) || containsAux needle rest

/-- Python `needle in hay` substring test (case-sensitive, contiguous). -/
def strContains (hay needle : String) : Bool :=
  containsAux needle.data hay.data

/-- The Forge line-scan condition (line 58): the raw line contains the
exact token `clientOnly` and its lowercased form contains `true`. -/
def forgeLineHit (line : String) : Bool :=
  strContains line "clientOnly" && strContains (pyLower line) "true"

/-- The `for line in text.splitlines()` loop of `parse_forge`
(lines 56-59): `client_only` starts `False` and is set to `True` on any
line satisfying `forgeLineHit`. -/
def forgeClientOnly (text : String) : Bool :=
  (pySplitlines text).foldl
    (fun acc line => if forgeLineHit line then true else acc) false

/-- `parse_forge` (lines 55-60): a total line-oriented scan; always
returns a record with loader `"forge"` (the Python function has a single
return statement producing a non-empty dict). -/
def parse_forge (text : String) (jar_name : Option String) : ModMeta :=
  { loader := some "forge", id := none, name := jar_name, env := none,
    client_only := some (forgeClientOnly text), icon := none }

/-- The fallback record `{"loader": None, "id": None, "name": jar.stem}`
built by `read_metadata` when no manifest is found or the archive cannot
be opened (lines 73, 75). -/
def fallbackMeta (stem : String) : ModMeta :=
  { loader := none, id := none, name := some stem, env := none,
    client_only := none, icon := none }

/-- The entry loop of `read_metadata` (lines 65-73): the first entry whose
name ends with `fabric.mod.json` (checked first) or `mods.toml` decides
the result.  For a Forge match the Python code returns
`meta, None if meta else "mods.toml解析失败"`; since `parse_forge` always
returns a non-empty (truthy) dict, the error branch is dead and the
translation returns `none` for the diagnostic. -/
def scanEntries (jp : String → Option JsonObj) (stem : String) :
    List (String × String) → Option ModMeta × Option String
  | [] => (some (fallbackMeta stem), some "未找到mods.toml或fabric.mod.json")
  | (n, c) :: rest =>
    if pyEndsWith n "fabric.mod.json" then
      match parse_fabric jp c (some stem) with
      | some m => (some m, none)
      | none => (none, some "fabric.mod.json解析失败")
    else if pyEndsWith n "mods.toml" then
      (some (parse_forge c (some stem)), none)
    else scanEntries jp stem rest

/-- `read_metadata` (lines 62-75) over the archive's entry list; the
`Except.error` case is the `except Exception as e` branch (archive
unreadable), whose message becomes the diagnostic. -/
def read_metadata (jp : String → Option JsonObj) (stem : String) :
    Except String (List (String × String)) → Option ModMeta × Option String
  | Except.error e => (some (fallbackMeta stem), some e)
  | Except.ok entries => scanEntries jp stem entries

/-- `classify` (lines 77-90).  Note the final fallthrough: a record whose
loader is present but neither `"fabric"` nor `"forge"` yields `"服务端"`
(ServerCapable), not `"解析失败"` (Unparseable). -/
def classify : Option ModMeta → String
  | none => "解析失败"
  | some m =>
    if m.loader = some "fabric" then
      if m.env = some "client" then "仅客户端" else "服务端"
    else if m.loader = some "forge" then
      if m.client_only = some true then "仅客户端" else "服务端"
    else if m.loader = none then "解析失败"
    else "服务端"

/-- One Modrinth search hit; the spec's remote contract guarantees a
`slug` and a `title` per result. -/
structure Hit where
  slug : String
  title : String
deriving DecidableEq, Repr

/-- The per-candidate score of `modrinth_link` (lines 107-110):
`+100` when the metadata has a truthy `id` equal to the candidate's slug,
plus `similarity(name, title) * 50` (similarity abstracted as `simf`). -/
def hitScore (simf : String → String → ℚ) (meta : ModMeta) (h : Hit) : ℚ :=
  (if pyTruthy meta.id = true ∧ meta.id = some h.slug then (100 : ℚ) else 0) +
    simf (pyStr meta.name) h.title * 50

/-- One iteration of the best-candidate loop (lines 111-113): the running
best is replaced only on a strictly greater score. -/
def bestStep (simf : String → String → ℚ) (meta : ModMeta)
    (acc : Option Hit × ℚ) (h : Hit) : Option Hit × ℚ :=
  if acc.2 < hitScore simf meta h then (some h, hitScore simf meta h) else acc

/-- The best-candidate loop of `modrinth_link` (lines 104-113), starting
from `best = None, best_score = 0`. -/
def bestHit (simf : String → String → ℚ) (meta : ModMeta)
    (hits : List Hit) : Option Hit × ℚ :=
  hits.foldl (bestStep simf meta) (none, 0)

/-- `modrinth_link` (lines 92-118) on the hit list of a successful
(HTTP 200) search response; the query is `meta.get("id") or
meta.get("name")` and a falsy query short-circuits to no link.  Timeouts,
transport errors and non-200 statuses — the paths that never reach this
loop — are modelled at the call site (`process_jar`) by passing no hit
list at all. -/
def modrinth_link (simf : String → String → ℚ) (meta : ModMeta)
    (hits : List Hit) : Option String :=
  if pyTruthy (pyOr meta.id meta.name) = false then none
  else
    let bs := bestHit simf meta hits
    if 60 ≤ bs.2 then bs.1.map (fun h => "https://modrinth.com/mod/" ++ h.slug)
    else none

/-- The fixed-shape link set of one enriched record (line 209). -/
structure Links where
  curseforge : String
  modrinth : Option String
  mcmod : String
deriving DecidableEq, Repr

/-- The `mod_info` dictionary built by `process_jar_with_sem` (line 215);
`name` is `jar.name` (the archive file name).  The icon fields are
omitted: no claim mentions them. -/
structure ModInfo where
  name : String
  category : String
  error : Option String
  links : Links
deriving DecidableEq, Repr

/-- The per-archive inputs a task consumes: the archive's file name and
stem, its zip entry list (or the open error), and the outcome of the
remote search round trip (`none` = timeout / transport error / non-200). -/
structure JarInput where
  fileName : String
  stem : String
  contents : Except String (List (String × String))
  hits : Option (List Hit)
deriving Repr

/-- The body of `process_jar_with_sem` (lines 202-224) without the
side-effect tail (signal emissions and the archive copy, which never
change the produced record — the copy failure is caught and only
logged). -/
def process_jar (jp : String → Option JsonObj)
    (simf : String → String → ℚ) (j : JarInput) : ModInfo :=
  let mr := read_metadata jp j.stem j.contents
  let category := classify mr.1
  let name_for_link := match mr.1 with
    | some m => m.name
    | none => some j.stem
  let cf := curseforge_link (pyStr name_for_link)
  let mc := mcmod_link (pyStr name_for_link)
  let mrlink := match mr.1 with
    | some m => match j.hits with
      | some hs => modrinth_link simf m hs
      | none => none
    | none => none
  { name := j.fileName, category := category, error := mr.2,
    links := { curseforge := cf, modrinth := mrlink, mcmod := mc } }

/-- Lexicographic code-point comparison of character lists: the order
Python uses for `str` comparison (and hence for `sorted` keys). -/
def charListLe : List Char → List Char → Bool
  | [], _ => true
  | _ :: _, [] => false
  | a :: as, b :: bs =>
    if a < b then true else if b < a then false else charListLe as bs

/-- Python `s1 <= s2` on strings. -/
def pyStrLe (a b : String) : Bool := charListLe a.data b.data

/-- The sort key comparison of the report loop (line 190):
`key=lambda x: x["name"].lower()`. -/
def nameKeyLe (a b : ModInfo) : Bool :=
  pyStrLe (pyLower a.name) (pyLower b.name)

/-- Stable insertion of one record into an already sorted bucket. -/
def insertByName (x : ModInfo) : List ModInfo → List ModInfo
  | [] => [x]
  | y :: ys => if nameKeyLe x y then x :: y :: ys else y :: insertByName x ys

/-- Python `sorted(bucket, key=lambda x: x["name"].lower())`: a stable
ascending sort by the lowercased name (stable sorts under the same total
key comparison agree, so insertion sort matches Timsort's output). -/
def sortByNameCI : List ModInfo → List ModInfo
  | [] => []
  | x :: xs => insertByName x (sortByNameCI xs)

/-- The fixed preamble `analyze_mods` writes at the top of the text report
(lines 175-186), concatenated in write order. -/
def preamble : String :=
  "===== 重要提示 =====\n" ++
  "1. 端属分类是从模组文件中解析，可靠性较高，但不一定完全准确\n" ++
  "2. 由于未使用官方API，模组页面链接（CurseForge、Modrinth）可能不准确\n" ++
  "3. 最终分类建议结合官方文档或实际测试确认\n\n" ++
  "===== 作者信息 =====\n" ++
  "作者: 茶清墨刂\n" ++
  "主页: https://space.bilibili.com/388428308\n" ++
  "GitHub: https://github.com/chaqingmodiao/minecraft-mod-analyzer\n" ++
  "使用AI进行开发\n" ++
  "版本: 0.3.0-2026.1.3\n\n"

/-- One item line of the text report (lines 191-196): the bracketed
section name, the archive file name, the optional diagnostic in
parentheses, then the three links with their `CF:` / `MR:` / `MC:`
prefixes; a missing Modrinth link is rendered by the f-string as the
literal `None`. -/
def logLine (sec : String) (m : ModInfo) : String :=
  "[" ++ sec ++ "] " ++ m.name ++
  (match m.error with
   | some e => " (" ++ e ++ ")"
   | none => "") ++
  " | CF: " ++ m.links.curseforge ++
  " | MR: " ++ pyStr m.links.modrinth ++
  " | MC: " ++ m.links.mcmod ++ "\n"

/-- One section of the text report (lines 188-196): the header
`\n===== {sec} =====\n\n` followed by the bucket sorted case-insensitively
by name, one `logLine` each. -/
def sectionText (sec : String) (ms : List ModInfo) : String :=
  "\n===== " ++ sec ++ " =====\n\n" ++
  String.join ((sortByNameCI ms).map (logLine sec))

/-- The bucket-building loop (lines 168-170): `sections` starts with the
three known keys and each record is appended to `sections[m["category"]]`;
a record with any other category raises `KeyError`, modelled as `none`. -/
def buildSections :
    List ModInfo → Option (List ModInfo × List ModInfo × List ModInfo)
  | [] => some ([], [], [])
  | m :: rest =>
    (buildSections rest).bind fun t =>
      if m.category = "服务端" then some (m :: t.1, t.2.1, t.2.2)
      else if m.category = "仅客户端" then some (t.1, m :: t.2.1, t.2.2)
      else if m.category = "解析失败" then some (t.1, t.2.1, m :: t.2.2)
      else none

/-- The full text report `analyze_mods` writes when `gen_log` is set
(lines 167-196): preamble, then the three sections in the fixed order
`服务端`, `仅客户端`, `解析失败`. -/
def genLog (mods : List ModInfo) : Option String :=
  (buildSections mods).map fun t =>
    preamble ++ sectionText "服务端" t.1 ++
    sectionText "仅客户端" t.2.1 ++ sectionText "解析失败" t.2.2

/-- The category of every record is one of the three bucket keys. -/
def cat3 (m : ModInfo) : Prop :=
  m.category = "服务端" ∨ m.category = "仅客户端" ∨ m.category = "解析失败"

instance (m : ModInfo) : Decidable (cat3 m) := by
  unfold cat3; infer_instance

/-- The filter-based description of the finished report: preamble, then
for each category in order the bucket of records of that category (in
arrival order) sorted case-insensitively by name.  This is the amended
form of the spec's export contract (C4); it differs from the spec's
literal line format in the `CF:`/`MR:`/`MC:` prefixes and in rendering a
missing verified link as `None`. -/
def specAmendedExport (mods : List ModInfo) : String :=
  preamble ++
  sectionText "服务端" (mods.filter fun m => m.category = "服务端") ++
  sectionText "仅客户端" (mods.filter fun m => m.category = "仅客户端") ++
  sectionText "解析失败" (mods.filter fun m => m.category = "解析失败")

/-- The item-line format prescribed by the specification's encoding
contract, following its words: `[<category>] <name>[ (<diagnostic>)] |
<catalogA> | <catalogB-or-empty> | <catalogC-or-empty>`, a missing
verified link rendered as an empty field. -/
def specExportLine (cat name : String) (diag : Option String)
    (catalogA : String) (catalogB : Option String)
    (catalogC : Option String) : String :=
  "[" ++ cat ++ "] " ++ name ++
  (match diag with
   | some d => " (" ++ d ++ ")"
   | none => "") ++
  " | " ++ catalogA ++ " | " ++ catalogB.getD "" ++ " | " ++ catalogC.getD ""

/-- RFC 3986 unreserved characters (kept verbatim by URL encoding). -/
def urlUnreserved (c : Char) : Bool :=
  c.isAlphanum || c = '-' || c = '.' || c = '_' || c = '~'

/-- Upper-case hexadecimal digit of a value below 16. -/
def hexDigit (n : Nat) : Char :=
  if n < 10 then Char.ofNat (48 + n) else Char.ofNat (55 + n)

/-- URL-encoding as the specification's words require of the link
builders ("templated from the display name (URL-encoded)"): standard
percent-encoding, every character outside the unreserved set replaced by
`%HH` (stated for one-byte code points, which covers the inputs used to
compare it with the source's builders). -/
def specUrlEncode (s : String) : String :=
  ⟨s.data.foldr
    (fun c acc =>
      if urlUnreserved c then c :: acc
      else '%' :: hexDigit (c.toNat / 16) :: hexDigit (c.toNat % 16) :: acc)
    []⟩

/-- What one dispatched task delivers to `asyncio.gather`: its `mod_info`
record, or an exception that escaped the task body (which has a
`try`/`finally` but no `except`, lines 201-237). -/
inductive TaskOutcome
  | ok (info : ModInfo)
  | fault (msg : String)
deriving DecidableEq, Repr

/-- `await asyncio.gather(*tasks)` at line 164, with the default
`return_exceptions=False`: if every task succeeds the list of results is
returned, otherwise the first exception is re-raised into the awaiting
coroutine (`analyze_mods`). -/
def gather : List TaskOutcome → Except String (List ModInfo)
  | [] => Except.ok []
  | TaskOutcome.ok m :: rest => (gather rest).map fun l => m :: l
  | TaskOutcome.fault e :: _ => Except.error e

/-- How a run of `analyze_mods` (lines 141-198) ends. -/
inductive RunResult
  /-- The `total == 0` early return (lines 144-146): one red log message,
  nothing else happens. -/
  | abortedEmpty (msg : String)
  /-- An exception escaped `analyze_mods`: the report-writing tail and the
  `finished_dir` emission never run. -/
  | faulted (msg : String)
  /-- Normal completion: the optional text report and the collected
  `all_mods` list. -/
  | completed (report : Option String) (mods : List ModInfo)
deriving DecidableEq, Repr

/-- `analyze_mods` (lines 141-198) over the per-task outcomes: the empty
check, then `await asyncio.gather(*tasks)`, then (when `gen_log`) the
text report; a `KeyError` from the bucket loop also escapes as a fault. -/
def analyzeOutcomes (gen_log : Bool) (outcomes : List TaskOutcome) :
    RunResult :=
  if outcomes.isEmpty then RunResult.abortedEmpty "❌ 未找到 Jar 文件"
  else
    match gather outcomes with
    | Except.error e => RunResult.faulted e
    | Except.ok mods =>
      if gen_log then
        match genLog mods with
        | some r => RunResult.completed (some r) mods
        | none => RunResult.faulted "KeyError"
      else RunResult.completed none mods

/-- The whole run on concrete archive inputs: one task per archive, each
task being the (exception-free) `process_jar` body, then `analyzeOutcomes`
— this is `analyze_mods` when no unanticipated exception occurs. -/
def analyzeRun (jp : String → Option JsonObj)
    (simf : String → String → ℚ) (gen_log : Bool)
    (inputs : List JarInput) : RunResult :=
  analyzeOutcomes gen_log
    (inputs.map fun j => TaskOutcome.ok (process_jar jp simf j))

/-- The scheduling phases of one per-archive task relative to the worker
semaphore: before `async with sem` (line 201), inside it (holding a
remote-call slot), and after release. -/
inductive TaskPhase
  | pending
  | holding
  | finished
deriving DecidableEq, Repr

/-- The orchestrator state for `M` dispatched tasks: the semaphore's
available-permit count (`asyncio.Semaphore(self.max_threads)`, line 159)
and each task's phase. -/
structure SemState (M : Nat) where
  avail : Nat
  phase : Fin M → TaskPhase

/-- The run's initial state: all permits available, every task created by
the dispatch loop (lines 161-163) still waiting to enter the semaphore. -/
def initState (N M : Nat) : SemState M :=
  { avail := N, phase := fun _ => TaskPhase.pending }

/-- How many tasks are past the slot-acquisition point (inside
`async with sem`) in a state. -/
def holdingCount {M : Nat} (s : SemState M) : Nat :=
  Finset.sum Finset.univ fun i =>
    if s.phase i = TaskPhase.holding then 1 else 0

/-- The semaphore protocol of `process_jar_with_sem` (line 201):
a pending task may enter only when a permit is available (taking one);
a holding task may finish at any time (returning its permit).  The
interleaving of the `asyncio` event loop is left fully nondeterministic. -/
inductive SemStep {M : Nat} : SemState M → SemState M → Prop
  | acquire (s : SemState M) (i : Fin M)
      (hp : s.phase i = TaskPhase.pending) (ha : 0 < s.avail) :
      SemStep s { avail := s.avail - 1,
                  phase := Function.update s.phase i TaskPhase.holding }
  | release (s : SemState M) (i : Fin M)
      (hp : s.phase i = TaskPhase.holding) :
      SemStep s { avail := s.avail + 1,
                  phase := Function.update s.phase i TaskPhase.finished }

/-- The states a run with worker budget `N` and `M` tasks can reach. -/
def reachable (N M : Nat) (s : SemState M) : Prop :=
  Relation.ReflTransGen SemStep (initState N M) s

/-- The zero similarity function: a degenerate but bound-respecting stand
in for `SequenceMatcher.ratio` used by concrete witnesses. -/
def zeroSim : String → String → ℚ := fun _ _ => 0

/-- A JSON parser stub that fails on every input (no fabric manifest in
play); used by concrete witnesses. -/
def noJson : String → Option JsonObj := fun _ => none

/-- A synthetic metadata record whose loader is present but is neither
`"fabric"` nor `"forge"`. -/
def quiltMeta : ModMeta :=
  { loader := some "quilt", id := none, name := some "Q", env := none,
    client_only := none, icon := none }

/-- A concrete enriched record with no diagnostic and no verified
Modrinth link (the remote lookup failed or scored below threshold). -/
def sampleInfo : ModInfo :=
  { name := "a.jar", category := "服务端", error := none,
    links := { curseforge := curseforge_link "a", modrinth := none,
               mcmod := mcmod_link "a" } }

/-- A second concrete enriched record, used by orchestrator witnesses. -/
def sampleInfoB : ModInfo :=
  { name := "B.jar", category := "仅客户端", error := none,
    links := { curseforge := curseforge_link "B", modrinth := none,
               mcmod := mcmod_link "B" } }

/-- A concrete archive input: a Forge manifest declaring
`clientOnly = true`, remote lookup unavailable. -/
def sampleJar : JarInput :=
  { fileName := "a.jar", stem := "a",
    contents := Except.ok [("META-INF/mods.toml", "clientOnly = true")],
    hits := none }

/-- A concrete metadata record with a stable identifier, for the catalog
matcher witness. -/
def sodiumMeta : ModMeta :=
  { loader := some "fabric", id := some "sodium", name := some "Sodium",
    env := some "*", client_only := none, icon := none }

/-- A one-candidate search response whose slug equals the identifier. -/
def sodiumHits : List Hit := [{ slug := "sodium", title := "Sodium" }]

/-- The state reached from `initState 1 2` after task `0` acquires the
single permit. -/
def c5State : SemState 2 :=
  { avail := 0,
    phase := Function.update (fun _ => TaskPhase.pending) (0 : Fin 2)
      TaskPhase.holding }


/-- A metadata result whose loader is one the classifier recognizes (or
which is the `parse_fabric`-failure `none`): every value `read_metadata`
can produce satisfies this. -/
def loaderRecognized : Option ModMeta → Prop
  | none => True
  | some m =>
    m.loader = none ∨ m.loader = some "fabric" ∨ m.loader = some "forge"

/-- The running maximum of the best-candidate loop: the fold of `max`
over the candidate scores starting from `init`. -/
def runMax (simf : String → String → ℚ) (meta : ModMeta)
    (hits : List Hit) (init : ℚ) : ℚ :=
  hits.foldl (fun s h => max s (hitScore simf meta h)) init

/-- The maximum of `0` and all candidate scores: the final `best_score`
of the loop of `modrinth_link`. -/
def maxScore (simf : String → String → ℚ) (meta : ModMeta)
    (hits : List Hit) : ℚ :=
  runMax simf meta hits 0

set_option maxRecDepth 4000

theorem foldl_setTrue_eq_any (p : String → Bool) (l : List String)
    (b : Bool) :
    l.foldl (fun acc line => if p line then true else acc) b
      = (b || l.any p) := by
  induction l generalizing b with
  | nil => simp
  | cons x xs ih =>
    rw [List.foldl_cons, ih, List.any_cons]
    by_cases h : p x = true <;> simp [h]

theorem parse_fabric_loader (jp : String → Option JsonObj) (text : String)
    (jar_name : Option String) (m : ModMeta)
    (h : parse_fabric jp text jar_name = some m) :
    m.loader = some "fabric" := by
  unfold parse_fabric at h
  cases hj : jp (clean_json text) with
  | none => rw [hj] at h; exact absurd h (by simp)
  | some d => rw [hj] at h; cases h; rfl

theorem classify_cases (meta : Option ModMeta) :
    classify meta = "服务端" ∨ classify meta = "仅客户端" ∨
      classify meta = "解析失败" := by
  cases meta with
  | none => simp [classify]
  | some m => simp only [classify]; split_ifs <;> simp

theorem runMax_cons (simf : String → String → ℚ) (meta : ModMeta)
    (x : Hit) (t : List Hit) (init : ℚ) :
    runMax simf meta (x :: t) init
      = runMax simf meta t (max init (hitScore simf meta x)) := rfl

theorem le_runMax (simf : String → String → ℚ) (meta : ModMeta)
    (l : List Hit) (init : ℚ) : init ≤ runMax simf meta l init := by
  induction l generalizing init with
  | nil => exact le_refl _
  | cons x t ih =>
    rw [runMax_cons]
    exact le_trans (le_max_left _ _) (ih _)

theorem score_le_runMax (simf : String → String → ℚ) (meta : ModMeta)
    (l : List Hit) (init : ℚ) (h : Hit) (hmem : h ∈ l) :
    hitScore simf meta h ≤ runMax simf meta l init := by
  induction l generalizing init with
  | nil => cases hmem
  | cons x t ih =>
    rw [runMax_cons]
    rcases List.mem_cons.mp hmem with rfl | hmem
    · exact le_trans (le_max_right _ _) (le_runMax _ _ _ _)
    · exact ih _ hmem

theorem foldl_bestStep_snd (simf : String → String → ℚ) (meta : ModMeta)
    (l : List Hit) (acc : Option Hit × ℚ) :
    (l.foldl (bestStep simf meta) acc).2 = runMax simf meta l acc.2 := by
  induction l generalizing acc with
  | nil => rfl
  | cons x t ih =>
    rw [List.foldl_cons, ih, runMax_cons]
    congr 1
    unfold bestStep
    rcases lt_or_le acc.2 (hitScore simf meta x) with hlt | hle
    · rw [if_pos hlt, max_eq_right (le_of_lt hlt)]
    · rw [if_neg (not_lt.mpr hle), max_eq_left hle]

theorem foldl_bestStep_fst (simf : String → String → ℚ) (meta : ModMeta)
    (l : List Hit) (b : Option Hit) (s : ℚ) :
    (l.foldl (bestStep simf meta) (b, s)).1 =
      if s < runMax simf meta l s then
        l.find? fun h => decide (hitScore simf meta h = runMax simf meta l s)
      else b := by
  induction l generalizing b s with
  | nil =>
    have h0 : runMax simf meta [] s = s := rfl
    rw [h0, if_neg (lt_irrefl s)]
    rfl
  | cons x t ih =>
    rw [List.foldl_cons]
    by_cases hx : s < hitScore simf meta x
    · have hstep : bestStep simf meta (b, s) x
          = (some x, hitScore simf meta x) := if_pos hx
      rw [hstep, ih]
      have hM : runMax simf meta (x :: t) s
          = runMax simf meta t (hitScore simf meta x) := by
        rw [runMax_cons, max_eq_right (le_of_lt hx)]
      rcases lt_or_eq_of_le
          (le_runMax simf meta t (hitScore simf meta x)) with hlt | heq
      · have h2 : s < runMax simf meta t (hitScore simf meta x) :=
          lt_trans hx hlt
        rw [if_pos hlt, hM, if_pos h2,
          List.find?_cons_of_neg _ (by
            simp only [decide_eq_true_eq]
            exact ne_of_lt hlt)]
      · have h1 : ¬ hitScore simf meta x
            < runMax simf meta t (hitScore simf meta x) :=
          not_lt.mpr (le_of_eq heq.symm)
        have h2 : s < runMax simf meta t (hitScore simf meta x) :=
          lt_of_lt_of_le hx (le_runMax _ _ _ _)
        rw [if_neg h1, hM, if_pos h2,
          List.find?_cons_of_pos _ (by
            simp only [decide_eq_true_eq]
            exact heq)]
    · have hstep : bestStep simf meta (b, s) x = (b, s) := if_neg hx
      rw [hstep, ih]
      have hM : runMax simf meta (x :: t) s = runMax simf meta t s := by
        rw [runMax_cons, max_eq_left (not_lt.mp hx)]
      rw [hM]
      by_cases hs : s < runMax simf meta t s
      · rw [if_pos hs, if_pos hs,
          List.find?_cons_of_neg _ (by
            simp only [decide_eq_true_eq]
            exact ne_of_lt (lt_of_le_of_lt (not_lt.mp hx) hs))]
      · rw [if_neg hs, if_neg hs]

theorem runMax_attained (simf : String → String → ℚ) (meta : ModMeta)
    (l : List Hit) (init : ℚ) :
    runMax simf meta l init = init ∨
      ∃ h ∈ l, runMax simf meta l init = hitScore simf meta h := by
  induction l generalizing init with
  | nil => exact Or.inl rfl
  | cons x t ih =>
    rw [runMax_cons]
    rcases ih (max init (hitScore simf meta x)) with heq | ⟨h, hmem, heq⟩
    · rcases max_choice init (hitScore simf meta x) with hm | hm
      · exact Or.inl (by rw [heq, hm])
      · exact Or.inr ⟨x, List.mem_cons_self x t, by rw [heq, hm]⟩
    · exact Or.inr ⟨h, List.mem_cons_of_mem x hmem, heq⟩

theorem buildSections_eq_filters (mods : List ModInfo)
    (h : ∀ m ∈ mods, cat3 m) :
    buildSections mods =
      some (mods.filter fun m => m.category = "服务端",
            mods.filter fun m => m.category = "仅客户端",
            mods.filter fun m => m.category = "解析失败") := by
  induction mods with
  | nil => rfl
  | cons m rest ih =>
    have hm : cat3 m := h m (List.mem_cons_self m rest)
    have hr : ∀ x ∈ rest, cat3 x := fun x hx => h x (List.mem_cons_of_mem m hx)
    rw [buildSections, ih hr, Option.some_bind]
    rcases hm with h1 | h1 | h1 <;>
      simp [h1, List.filter_cons]

theorem genLog_eq_spec (mods : List ModInfo) (h : ∀ m ∈ mods, cat3 m) :
    genLog mods = some (specAmendedExport mods) := by
  rw [genLog, buildSections_eq_filters mods h]
  rfl

theorem gather_map_ok (l : List ModInfo) :
    gather (l.map TaskOutcome.ok) = Except.ok l := by
  induction l with
  | nil => rfl
  | cons m rest ih => rw [List.map_cons, gather, ih]; rfl

theorem process_jar_cat3 (jp : String → Option JsonObj)
    (simf : String → String → ℚ) (j : JarInput) :
    cat3 (process_jar jp simf j) := by
  have := classify_cases (read_metadata jp j.stem j.contents).1
  unfold cat3 process_jar
  rcases this with h | h | h <;> simp [h]

theorem step_invariant {N M : Nat} {s t : SemState M} (step : SemStep s t)
    (ih : holdingCount s + s.avail = N) : holdingCount t + t.avail = N := by
  cases step with
  | acquire i hp ha =>
    have hcomp : (fun j => if Function.update s.phase i
          TaskPhase.holding j = TaskPhase.holding then (1 : Nat) else 0)
        = Function.update
          (fun j => if s.phase j = TaskPhase.holding then (1 : Nat) else 0)
          i 1 := by
      funext j
      by_cases hji : j = i
      · subst hji; simp [Function.update_same]
      · simp [Function.update_noteq hji]
    have hnew : holdingCount
        { avail := s.avail - 1,
          phase := Function.update s.phase i TaskPhase.holding }
        = 1 + Finset.sum (Finset.univ \ {i})
            (fun j => if s.phase j = TaskPhase.holding then (1 : Nat) else 0) := by
      unfold holdingCount
      rw [hcomp]
      exact Finset.sum_update_of_mem (Finset.mem_univ i) _ _
    have hold : holdingCount s
        = Finset.sum (Finset.univ \ {i})
            (fun j => if s.phase j = TaskPhase.holding then (1 : Nat) else 0) := by
      unfold holdingCount
      rw [Finset.sum_eq_sum_diff_singleton_add (Finset.mem_univ i), hp]
      simp
    rw [hnew]
    dsimp only
    rw [hold] at ih
    omega
  | release i hp =>
    have hcomp : (fun j => if Function.update s.phase i
          TaskPhase.finished j = TaskPhase.holding then (1 : Nat) else 0)
        = Function.update
          (fun j => if s.phase j = TaskPhase.holding then (1 : Nat) else 0)
          i 0 := by
      funext j
      by_cases hji : j = i
      · subst hji; simp [Function.update_same]
      · simp [Function.update_noteq hji]
    have hnew : holdingCount
        { avail := s.avail + 1,
          phase := Function.update s.phase i TaskPhase.finished }
        = 0 + Finset.sum (Finset.univ \ {i})
            (fun j => if s.phase j = TaskPhase.holding then (1 : Nat) else 0) := by
      unfold holdingCount
      rw [hcomp]
      exact Finset.sum_update_of_mem (Finset.mem_univ i) _ _
    have hold : holdingCount s
        = Finset.sum (Finset.univ \ {i})
            (fun j => if s.phase j = TaskPhase.holding then (1 : Nat) else 0) + 1 := by
      unfold holdingCount
      rw [Finset.sum_eq_sum_diff_singleton_add (Finset.mem_univ i), hp]
      simp
    rw [hnew]
    dsimp only
    rw [hold] at ih
    omega

theorem reachable_invariant {N M : Nat} {s : SemState M}
    (h : reachable N M s) : holdingCount s + s.avail = N := by
  induction h with
  | refl => simp [initState, holdingCount]
  | tail _ step ih => exact step_invariant step ih

theorem scanEntries_loader (jp : String → Option JsonObj) (stem : String)
    (entries : List (String × String)) :
    loaderRecognized (scanEntries jp stem entries).1 := by
  induction entries with
  | nil => exact Or.inl rfl
  | cons e rest ih =>
    obtain ⟨n, c⟩ := e
    simp only [scanEntries]
    split_ifs with h1 h2
    · cases hp : parse_fabric jp c (some stem) with
      | none => exact trivial
      | some m =>
        exact Or.inr (Or.inl (parse_fabric_loader jp c (some stem) m hp))
    · exact Or.inr (Or.inr rfl)
    · exact ih

theorem scanEntries_forge (jp : String → Option JsonObj) (stem : String)
    (pre post : List (String × String)) (nm ct : String)
    (hpre : ∀ e ∈ pre, pyEndsWith e.1 "fabric.mod.json" = false ∧
        pyEndsWith e.1 "mods.toml" = false)
    (hfab : pyEndsWith nm "fabric.mod.json" = false)
    (htoml : pyEndsWith nm "mods.toml" = true) :
    scanEntries jp stem (pre ++ (nm, ct) :: post)
      = (some (parse_forge ct (some stem)), none) := by
  revert hpre
  induction pre with
  | nil =>
    intro _
    simp [scanEntries, hfab, htoml]
  | cons e es ih =>
    intro hpre
    obtain ⟨n, c⟩ := e
    have h1 := (hpre (n, c) (List.mem_cons_self _ _)).1
    have h2 := (hpre (n, c) (List.mem_cons_self _ _)).2
    rw [List.cons_append]
    simp only [scanEntries, h1, h2, Bool.false_eq_true, if_false]
    exact ih fun x hx => hpre x (List.mem_cons_of_mem _ hx)

/-- C1: the spec claims that a per-archive task raising an unrecovered
fault does not propagate to the aggregator and that the other results
still appear in the final report.  The code violates this design rule:
`process_jar_with_sem` has a `try`/`finally` with no `except`, and
`analyze_mods` awaits `asyncio.gather(*tasks)` without
`return_exceptions`, so the first fault re-raises into `analyze_mods`,
the report-writing tail never runs, and the run ends `faulted` with no
report — evaluated here on two tasks, one of which succeeds. -/
theorem c1_unrecovered_fault_kills_report :
    analyzeOutcomes true
        [TaskOutcome.ok sampleInfo, TaskOutcome.fault "boom"]
      = RunResult.faulted "boom" := rfl

/-- C2 counterexample: a metadata record whose loader entry is present
but unrecognized (`"quilt"`) is classified `服务端` (ServerCapable) by the
final fallthrough of `classify`, not `解析失败` (Unparseable), falsifying
the claim as stated. -/
theorem c2_counterexample :
    quiltMeta.loader = some "quilt" ∧ classify (some quiltMeta) = "服务端" :=
  ⟨rfl, by decide⟩

/-- C2 (amended): `classify` returns Unparseable exactly when the record
is absent or its loader entry is `None`; a present-but-unrecognized
loader value falls through to ServerCapable instead.  The fallthrough is
unreachable from the reader: `read_metadata` only produces loader values
`None`, `"fabric"` or `"forge"`. -/
theorem c2_amended_classification :
    (∀ meta : Option ModMeta,
      (classify meta = "解析失败" ↔
        meta = none ∨ ∃ m, meta = some m ∧ m.loader = none)) ∧
    ∀ jp stem contents, loaderRecognized (read_metadata jp stem contents).1 := by
  constructor
  · intro meta
    cases meta with
    | none => simp [classify]
    | some m =>
      simp only [classify, Option.some.injEq]
      split_ifs with h1 h2 h3 h4 h5 <;> simp_all
  · intro jp stem contents
    cases contents with
    | error e => exact Or.inl rfl
    | ok entries => exact scanEntries_loader jp stem entries

/-- C3 counterexample: the CurseForge link builder does not URL-encode
the display name — on `"a b"` it emits the raw space, which differs from
the template instantiated with the URL-encoded name. -/
theorem c3_counterexample :
    curseforge_link "a b"
      ≠ "https://www.curseforge.com/minecraft/mc-mods/"
          ++ specUrlEncode "a b" := by
  decide

/-- C3 (amended): both deterministic link builders are pure functions of
the display name — each is exactly its fixed template concatenated with
the *raw* (not URL-encoded) display name, so equal names give
byte-identical URLs and distinct names give distinct URLs. -/
theorem c3_amended_link_builders (name : String) :
    curseforge_link name
      = "https://www.curseforge.com/minecraft/mc-mods/" ++ name ∧
    mcmod_link name = "https://search.mcmod.cn/s?key=" ++ name ∧
    ∀ other : String,
      (curseforge_link name = curseforge_link other ↔ name = other) ∧
      (mcmod_link name = mcmod_link other ↔ name = other) := by
  have key : ∀ pre a b : String, (pre ++ a = pre ++ b) ↔ a = b := by
    intro pre a b
    constructor
    · intro h
      have hd : pre.data ++ a.data = pre.data ++ b.data :=
        congrArg String.data h
      exact String.ext (List.append_cancel_left hd)
    · intro h
      rw [h]
  exact ⟨rfl, rfl, fun other => ⟨key _ name other, key _ name other⟩⟩

/-- C4 counterexample: the actual report line produced for a concrete
item (no diagnostic, no verified Modrinth link) differs from the
spec-prescribed line format — the code prefixes the fields with `CF:`,
`MR:`, `MC:` and renders the missing verified link as the literal `None`
instead of an empty field. -/
theorem c4_counterexample :
    logLine "服务端" sampleInfo
      ≠ specExportLine "服务端" sampleInfo.name sampleInfo.error
          sampleInfo.links.curseforge sampleInfo.links.modrinth
          (some sampleInfo.links.mcmod) ++ "\n" := by
  decide

/-- C4 (amended): the text export consists of the fixed preamble and the
three category sections in order `服务端`, `仅客户端`, `解析失败`; each
section holds exactly the items of that category (grouped, in arrival
order) sorted case-insensitively by archive file name, one line per item
of the form `[<category>] <name>[ (<diagnostic>)] | CF: <curseforge> |
MR: <modrinth-or-None> | MC: <mcmod>`. -/
theorem c4_amended_export (mods : List ModInfo)
    (h : ∀ m ∈ mods, cat3 m) :
    genLog mods = some (specAmendedExport mods) :=
  genLog_eq_spec mods h

/-- C4 witness: the amended export theorem applied to a concrete
two-item run. -/
theorem c4_amended_export_witness :
    (∀ m ∈ [sampleInfo, sampleInfoB], cat3 m) ∧
    genLog [sampleInfo, sampleInfoB]
      = some (specAmendedExport [sampleInfo, sampleInfoB]) :=
  ⟨by decide, c4_amended_export [sampleInfo, sampleInfoB] (by decide)⟩

/-- C5: for every worker budget `N` and task count `M`, every state the
semaphore protocol can reach from the initial state has at most `N`
tasks past the slot-acquisition point — the bound is `N` whatever `M`
is. -/
theorem c5_worker_budget_bound (N M : Nat) (s : SemState M)
    (h : reachable N M s) : holdingCount s ≤ N :=
  Nat.le.intro (reachable_invariant h)

/-- C5 witness: with budget 1 and 2 tasks, the state after task 0
acquires the permit holds at most 1 slot. -/
theorem c5_worker_budget_bound_witness : holdingCount c5State ≤ 1 :=
  c5_worker_budget_bound 1 2 c5State
    (Relation.ReflTransGen.single
      (SemStep.acquire (initState 1 2) (0 : Fin 2) rfl (by decide)))

/-- C6: whenever the metadata carries a (truthy) stable identifier and
some candidate's slug equals it exactly, the loop's maximum score is at
least 100 — whatever the similarity function does, as long as it is
nonnegative like `SequenceMatcher.ratio` — and `modrinth_link` accepts,
returning a verified link (100 clears the threshold 60). -/
theorem c6_exact_slug_accepted (simf : String → String → ℚ)
    (meta : ModMeta) (hits : List Hit) (i : String)
    (hid : meta.id = some i) (hne : i ≠ "")
    (hmem : ∃ h ∈ hits, h.slug = i)
    (hsim : ∀ a b, 0 ≤ simf a b) :
    100 ≤ maxScore simf meta hits ∧
    (bestHit simf meta hits).2 = maxScore simf meta hits ∧
    ∃ url, modrinth_link simf meta hits = some url := by
  obtain ⟨h0, hh0, hslug⟩ := hmem
  have hie : i.isEmpty = false := by
    cases hb : i.isEmpty
    · rfl
    · exact absurd ((String.isEmpty_iff i).mp hb) hne
  have htr : pyTruthy meta.id = true := by
    rw [hid]
    simp [pyTruthy, hie]
  have hscore : (100 : ℚ) ≤ hitScore simf meta h0 := by
    unfold hitScore
    rw [if_pos ⟨htr, by rw [hid, hslug]⟩]
    have hnn := mul_nonneg (hsim (pyStr meta.name) h0.title)
      (by norm_num : (0 : ℚ) ≤ 50)
    linarith
  have hmax : (100 : ℚ) ≤ maxScore simf meta hits :=
    le_trans hscore (score_le_runMax simf meta hits 0 h0 hh0)
  have hbs2 : (bestHit simf meta hits).2 = maxScore simf meta hits :=
    foldl_bestStep_snd simf meta hits (none, 0)
  refine ⟨hmax, hbs2, ?_⟩
  have hpos : (0 : ℚ) < maxScore simf meta hits :=
    lt_of_lt_of_le (by norm_num) hmax
  have hfst : (bestHit simf meta hits).1
      = hits.find? fun h =>
          decide (hitScore simf meta h = maxScore simf meta hits) := by
    have hpos' : (0 : ℚ) < runMax simf meta hits 0 := hpos
    have hf := foldl_bestStep_fst simf meta hits none 0
    rw [if_pos hpos'] at hf
    exact hf
  obtain ⟨hfound, hfind⟩ : ∃ hh,
      (hits.find? fun h =>
        decide (hitScore simf meta h = maxScore simf meta hits)) = some hh := by
    rcases runMax_attained simf meta hits 0 with h0' | ⟨ha, hamem, haeq⟩
    · rw [show maxScore simf meta hits = runMax simf meta hits 0 from rfl,
        h0'] at hpos
      exact absurd hpos (lt_irrefl 0)
    · cases hf : hits.find? fun h =>
          decide (hitScore simf meta h = maxScore simf meta hits) with
      | some hh => exact ⟨hh, rfl⟩
      | none =>
        have hnone := List.find?_eq_none.mp hf ha hamem
        exact absurd (by simpa using haeq.symm) hnone
  have hq : ¬ pyTruthy (pyOr meta.id meta.name) = false := by
    unfold pyOr
    rw [if_pos htr, htr]
    simp
  have h60 : (60 : ℚ) ≤ (bestHit simf meta hits).2 := by
    rw [hbs2]
    linarith
  refine ⟨"https://modrinth.com/mod/" ++ hfound.slug, ?_⟩
  unfold modrinth_link
  rw [if_neg hq, if_pos h60, hfst, hfind]
  rfl

/-- C6 witness: a one-candidate response whose slug equals the stable
identifier, with a degenerate (zero) similarity function. -/
theorem c6_exact_slug_accepted_witness :
    100 ≤ maxScore zeroSim sodiumMeta sodiumHits ∧
    (bestHit zeroSim sodiumMeta sodiumHits).2
      = maxScore zeroSim sodiumMeta sodiumHits ∧
    ∃ url, modrinth_link zeroSim sodiumMeta sodiumHits = some url :=
  c6_exact_slug_accepted zeroSim sodiumMeta sodiumHits "sodium" rfl
    (by decide)
    ⟨{ slug := "sodium", title := "Sodium" }, by simp [sodiumHits], rfl⟩
    (fun a b => le_refl 0)

/-- C7: for Forge metadata, `classify` yields ClientOnly (`仅客户端`)
exactly when some line of the manifest text contains the exact token
`clientOnly` together with a case-insensitive occurrence of `true`; in
every other case (in particular when no such line exists) it yields
ServerCapable (`服务端`). -/
theorem c7_forge_client_only_iff (text : String) (jar_name : Option String) :
    (classify (some (parse_forge text jar_name)) = "仅客户端" ↔
      ∃ line ∈ pySplitlines text,
        strContains line "clientOnly" = true ∧
        strContains (pyLower line) "true" = true) ∧
    (classify (some (parse_forge text jar_name)) = "仅客户端" ∨
      classify (some (parse_forge text jar_name)) = "服务端") := by
  have hany : forgeClientOnly text = (pySplitlines text).any forgeLineHit := by
    unfold forgeClientOnly
    rw [foldl_setTrue_eq_any forgeLineHit (pySplitlines text) false]
    simp
  have hex : forgeClientOnly text = true ↔
      (∃ line ∈ pySplitlines text,
        strContains line "clientOnly" = true ∧
        strContains (pyLower line) "true" = true) := by
    rw [hany, List.any_eq_true]
    simp [forgeLineHit]
  have hc : classify (some (parse_forge text jar_name))
      = if forgeClientOnly text = true then "仅客户端" else "服务端" := by
    by_cases hfc : forgeClientOnly text = true <;>
      simp [classify, parse_forge, hfc]
  rw [hc]
  constructor
  · by_cases hfc : forgeClientOnly text = true
    · rw [if_pos hfc]
      exact iff_of_true rfl (hex.mp hfc)
    · rw [if_neg hfc]
      exact iff_of_false (by decide) fun hx => hfc (hex.mpr hx)
  · by_cases hfc : forgeClientOnly text = true
    · exact Or.inl (by rw [if_pos hfc])
    · exact Or.inr (by rw [if_neg hfc])

/-- C8 counterexample: the empty input listing is *not* the only
condition that aborts the whole run — a task ending in an unrecovered
fault also aborts it (the fault re-raises through `asyncio.gather`), as
evaluated here on a non-empty run of one faulting task. -/
theorem c8_counterexample :
    analyzeOutcomes true [TaskOutcome.fault "crash"]
      = RunResult.faulted "crash" := rfl

/-- C8 (amended): an empty listing makes the run terminate immediately
with the single run-level message `❌ 未找到 Jar 文件` and no report; and
for every non-empty listing, all of the anticipated per-item failure
modes (archive unreadable, manifest missing or malformed, remote lookup
failed) are item-scoped — the run completes, the report covers all `M`
archives, and each failure only shows up inside its own record.  (An
*unrecovered* task exception, by contrast, also aborts the run — see the
counterexample.) -/
theorem c8_amended_abort_policy (jp : String → Option JsonObj)
    (simf : String → String → ℚ) (gen_log : Bool)
    (inputs : List JarInput) :
    (inputs = [] →
      analyzeRun jp simf gen_log inputs
        = RunResult.abortedEmpty "❌ 未找到 Jar 文件") ∧
    (inputs ≠ [] →
      ∃ mods, analyzeRun jp simf gen_log inputs
          = RunResult.completed
              (if gen_log then some (specAmendedExport mods) else none)
              mods ∧
        mods.length = inputs.length) := by
  constructor
  · rintro rfl
    rfl
  · intro hne
    refine ⟨inputs.map (process_jar jp simf), ?_, by simp⟩
    have hcat : ∀ m ∈ inputs.map (process_jar jp simf), cat3 m := by
      intro m hm
      obtain ⟨j, _, rfl⟩ := List.mem_map.mp hm
      exact process_jar_cat3 jp simf j
    obtain ⟨a, l, rfl⟩ : ∃ a l, inputs = a :: l := by
      cases inputs with
      | nil => exact absurd rfl hne
      | cons a l => exact ⟨a, l, rfl⟩
    have hg : gather ((a :: l).map fun j =>
          TaskOutcome.ok (process_jar jp simf j))
        = Except.ok ((a :: l).map (process_jar jp simf)) := by
      have h := gather_map_ok ((a :: l).map (process_jar jp simf))
      rw [List.map_map] at h
      exact h
    have hmods := genLog_eq_spec (List.map (process_jar jp simf) (a :: l)) hcat
    simp only [List.map_cons] at hmods
    unfold analyzeRun analyzeOutcomes
    rw [hg]
    cases gen_log with
    | true => simp [hmods]
    | false => simp

/-- C8 witness: the amended abort policy evaluated on the empty run and
on a concrete one-archive run. -/
theorem c8_amended_abort_policy_witness :
    analyzeRun noJson zeroSim true []
      = RunResult.abortedEmpty "❌ 未找到 Jar 文件" ∧
    ∃ mods, analyzeRun noJson zeroSim true [sampleJar]
        = RunResult.completed (some (specAmendedExport mods)) mods ∧
      mods.length = 1 := by
  refine ⟨(c8_amended_abort_policy noJson zeroSim true []).1 rfl, ?_⟩
  obtain ⟨mods, hm, hl⟩ :=
    (c8_amended_abort_policy noJson zeroSim true [sampleJar]).2
      (List.cons_ne_nil _ _)
  exact ⟨mods, hm, hl⟩

/-- C9: `parse_forge` is total — it returns a loader-`"forge"` record on
*every* input text — so when the first matching manifest entry of an
archive is a `mods.toml`, `read_metadata` returns that record with no
diagnostic (the `mods.toml解析失败` branch is unreachable) and the archive
is never classified Unparseable, whatever the manifest contains. -/
theorem c9_forge_parse_total (jp : String → Option JsonObj) (stem : String)
    (pre post : List (String × String)) (nm ct : String)
    (hpre : ∀ e ∈ pre, pyEndsWith e.1 "fabric.mod.json" = false ∧
        pyEndsWith e.1 "mods.toml" = false)
    (hfab : pyEndsWith nm "fabric.mod.json" = false)
    (htoml : pyEndsWith nm "mods.toml" = true) :
    (parse_forge ct (some stem)).loader = some "forge" ∧
    read_metadata jp stem (Except.ok (pre ++ (nm, ct) :: post))
      = (some (parse_forge ct (some stem)), none) ∧
    classify (some (parse_forge ct (some stem))) ≠ "解析失败" := by
  refine ⟨rfl, ?_, ?_⟩
  · exact scanEntries_forge jp stem pre post nm ct hpre hfab htoml
  · by_cases hfc : forgeClientOnly ct = true <;>
      simp [classify, parse_forge, hfc]

/-- C9 witness: a concrete archive whose second entry is a `mods.toml`
(the first entry matches neither manifest name). -/
theorem c9_forge_parse_total_witness :
    (parse_forge "clientOnly = true" (some "a")).loader = some "forge" ∧
    read_metadata noJson "a"
        (Except.ok [("pack.png", "x"), ("META-INF/mods.toml", "clientOnly = true")])
      = (some (parse_forge "clientOnly = true" (some "a")), none) ∧
    classify (some (parse_forge "clientOnly = true" (some "a"))) ≠ "解析失败" :=
  c9_forge_parse_total noJson "a" [("pack.png", "x")] [] "META-INF/mods.toml"
    "clientOnly = true" (by decide) (by decide) (by decide)

/-- C10: the best-candidate loop's final score is the maximum of 0 and
all candidate scores, and — because the update uses a strict
greater-than — the selected candidate is the *earliest* hit attaining
that maximum (`List.find?` returns the first match), or none when no
candidate scores positively; the result is a pure function of the
metadata and the response list. -/
theorem c10_earliest_max_selected (simf : String → String → ℚ)
    (meta : ModMeta) (hits : List Hit) :
    (bestHit simf meta hits).2 = maxScore simf meta hits ∧
    (bestHit simf meta hits).1 =
      (if 0 < maxScore simf meta hits then
        hits.find? fun h =>
          decide (hitScore simf meta h = maxScore simf meta hits)
      else none) :=
  ⟨foldl_bestStep_snd simf meta hits (none, 0),
   foldl_bestStep_fst simf meta hits none 0⟩
